import Mathlib

/-!
Verification of the client-side video export pipeline and the
generative-AI helper utilities of the video editor repository.

The definitions below are a shallow embedding of the TypeScript source:
* `handleExportVideo` in `src/components/Sidebar.tsx` (scene duration
  resolution, per-scene render loop, Ken Burns zoom, subtitle word wrap,
  subtitle style rendering, failure handling);
* `retryOperation` in the Gemini service module;
* `processQueue` in the scenes view (bounded-concurrency task queue).

Machine floating point is modelled by `ℚ`; fallible browser calls are
modelled by explicit outcome parameters.
-/

/-! ## Scene model and duration resolution (`handleExportVideo`, step B) -/

/-- A scene as consumed by the export pipeline.  The `audio` field models
`scene.audioUrl` together with the outcome of `fetch`/`decodeAudioData`:
`none` means no `audioUrl`; `some none` means the URL is present but
fetching or decoding fails (the `catch` branch); `some (some d)` means
decoding succeeds with a decoded duration of `d` milliseconds
(`audioBuffer.duration * 1000`). -/
structure ExpScene where
  narration : String
  hasImage : Bool
  audio : Option (Option ℚ)
deriving DecidableEq

/-- `durationMs` as computed in `handleExportVideo`: it starts at the
default 3000, is overwritten by the decoded audio duration when decoding
succeeds, and finally `durationMs += 500` adds the transition buffer. -/
def sceneDurationMs (audio : Option (Option ℚ)) : ℚ :=
  (match audio with
   | some (some d) => d
   | some none => 3000
   | none => 3000) + 500

/-- The per-scene animation loop.  `loopTime` starts at 0; each iteration
renders one frame (here: records its `loopTime`), sleeps, and re-reads the
wall clock (`loopTime = Date.now() - startTime`); the `while` guard is
`loopTime < durationMs`.  `samples` is the finite trace of wall-clock
readings taken at the end of each iteration. -/
def loopFrames (durationMs : ℚ) : List ℚ → ℚ → List ℚ
  | [], t => if t < durationMs then [t] else []
  | s :: ss, t => if t < durationMs then t :: loopFrames durationMs ss s else []

theorem loopFrames_eq_takeWhile (d : ℚ) (samples : List ℚ) (t : ℚ) :
    loopFrames d samples t = (t :: samples).takeWhile (fun x => decide (x < d)) := by
  induction samples generalizing t with
  | nil =>
    simp only [loopFrames, List.takeWhile]
    by_cases h : t < d <;> simp [h]
  | cons s ss ih =>
    simp only [loopFrames]
    by_cases h : t < d <;> simp [h, ih, List.takeWhile_cons]

theorem loopFrames_lt (d : ℚ) (samples : List ℚ) (t : ℚ) :
    ∀ x ∈ loopFrames d samples t, x < d := by
  intro x hx
  rw [loopFrames_eq_takeWhile] at hx
  have := List.takeWhile_subset (p := fun x => decide (x < d)) (l := t :: samples)
  have hmem := List.mem_takeWhile_imp hx
  simpa using hmem

/-! ## Ken Burns zoom (`handleExportVideo`, step C) -/

/-- `const progress = loopTime / durationMs`. -/
def kbProgress (loopTime durationMs : ℚ) : ℚ := loopTime / durationMs

/-- `const scale = 1.0 + (0.15 * progress)`. -/
def kbScale (loopTime durationMs : ℚ) : ℚ :=
  1 + (15 / 100) * kbProgress loopTime durationMs

/-- C1: for every scene, the nominal contribution to total output duration
is the decoded audio duration plus 500 ms when the scene has a (decodable)
audio reference and 3000 + 500 ms when it has none, and the per-scene
render loop runs exactly while the wall-clock `loopTime` is below this
nominal duration (so every rendered frame time is strictly below it). -/
theorem scene_duration_and_loop (a : Option (Option ℚ)) (d : ℚ) (samples : List ℚ) :
    (a = some (some d) → sceneDurationMs a = d + 500) ∧
    (a = none → sceneDurationMs a = 3000 + 500) ∧
    loopFrames (sceneDurationMs a) samples 0 =
      ((0 : ℚ) :: samples).takeWhile (fun x => decide (x < sceneDurationMs a)) ∧
    (∀ x ∈ loopFrames (sceneDurationMs a) samples 0, x < sceneDurationMs a) := by
  refine ⟨?_, ?_, loopFrames_eq_takeWhile _ _ _, loopFrames_lt _ _ _⟩
  · rintro rfl; rfl
  · rintro rfl; rfl

theorem scene_duration_and_loop_witness :
    sceneDurationMs (some (some 2000)) = 2000 + 500 ∧ sceneDurationMs none = 3000 + 500 :=
  ⟨(scene_duration_and_loop (some (some 2000)) 2000 []).1 rfl,
   (scene_duration_and_loop none 0 []).2.1 rfl⟩

/-- C3: the Ken Burns zoom scale is `1 + 0.15 * (loopTime / durationMs)`:
exactly 1 at elapsed fraction 0, monotone non-decreasing in elapsed time,
strictly below 1.15 for every frame the loop renders, and approaching 1.15
as the elapsed fraction approaches 1. -/
theorem ken_burns_zoom (d : ℚ) (hd : 0 < d) :
    kbScale 0 d = 1 ∧
    (∀ u v : ℚ, u ≤ v → kbScale u d ≤ kbScale v d) ∧
    (∀ t : ℚ, 0 ≤ t → t < d → 1 ≤ kbScale t d ∧ kbScale t d < 115 / 100) ∧
    (∀ samples : List ℚ, ∀ t ∈ loopFrames d samples 0, kbScale t d < 115 / 100) ∧
    (∀ ε : ℚ, 0 < ε → ∃ t, 0 ≤ t ∧ t < d ∧ (115 / 100 : ℚ) - kbScale t d < ε) := by
  have hdne : d ≠ 0 := ne_of_gt hd
  have hscale : ∀ t : ℚ, kbScale t d = 1 + (15 / 100) * (t / d) := fun t => rfl
  refine ⟨?_, ?_, ?_, ?_, ?_⟩
  · simp [kbScale, kbProgress]
  · intro u v huv
    have h : u / d ≤ v / d := by gcongr
    rw [hscale, hscale]
    nlinarith
  · intro t ht htd
    have h0 : 0 ≤ t / d := div_nonneg ht (le_of_lt hd)
    have h1 : t / d < 1 := (div_lt_one hd).mpr htd
    rw [hscale]
    constructor <;> nlinarith
  · intro samples t ht
    have htd : t < d := loopFrames_lt d samples 0 t ht
    have h1 : t / d < 1 := (div_lt_one hd).mpr htd
    rw [hscale]
    nlinarith
  · intro ε hε
    set m : ℚ := min ε (1 / 2) with hm
    have hm0 : 0 < m := lt_min hε (by norm_num)
    have hm1 : m ≤ 1 / 2 := min_le_right _ _
    refine ⟨d * (1 - m), ?_, ?_, ?_⟩
    · nlinarith
    · nlinarith
    · have hq : d * (1 - m) / d = 1 - m := by
        rw [mul_comm, mul_div_assoc, div_self hdne, mul_one]
      rw [hscale, hq]
      rcases le_or_lt ε (1 / 2) with h | h
      · have : m = ε := by rw [hm, min_eq_left h]
        nlinarith
      · nlinarith [min_le_right ε (1 / 2), lt_min hε (show (0:ℚ) < 1 / 2 by norm_num)]

theorem ken_burns_zoom_witness :
    kbScale 0 3500 = 1 ∧ kbScale 1000 3500 ≤ kbScale 2000 3500 :=
  ⟨(ken_burns_zoom 3500 (by norm_num)).1,
   (ken_burns_zoom 3500 (by norm_num)).2.1 1000 2000 (by norm_num)⟩

/-! ## Subtitle word wrap (`handleExportVideo`, subtitle block) -/

/-- The word-wrap loop from `handleExportVideo`:
`testLine = line + words[n] + ' '`; if `measureText(testLine).width >
maxWidth && n > 0` the current line is committed and a new line starts
with the word, else the word is appended; after the loop the last line is
pushed unconditionally.  `measure` abstracts `ctx.measureText(·).width`. -/
def wrapLoop (measure : String → ℚ) (maxWidth : ℚ) : List String → ℕ → String → List String
  | [], _, line => [line]
  | w :: ws, n, line =>
    let testLine := line ++ w ++ " "
    if measure testLine > maxWidth ∧ 0 < n then
      line :: wrapLoop measure maxWidth ws (n + 1) (w ++ " ")
    else
      wrapLoop measure maxWidth ws (n + 1) testLine

/-- Entry point: `let line = ''` and the loop starts at word index 0. -/
def wrapWords (measure : String → ℚ) (maxWidth : ℚ) (words : List String) : List String :=
  wrapLoop measure maxWidth words 0 ""

/-- Concatenation of a list of strings, used to state that no word is
dropped by the wrap. -/
def joinAll : List String → String
  | [] => ""
  | s :: ss => s ++ joinAll ss

theorem wrapLoop_sound (measure : String → ℚ) (maxWidth : ℚ) (W : List String) :
    ∀ (ws : List String) (n : ℕ) (line : String), 0 < n →
      (∀ w ∈ ws, w ∈ W) →
      (measure line ≤ maxWidth ∨ ∃ w ∈ W, line = w ++ " ") →
      ∀ l ∈ wrapLoop measure maxWidth ws n line,
        measure l ≤ maxWidth ∨ ∃ w ∈ W, l = w ++ " " := by
  intro ws
  induction ws with
  | nil =>
    intro n line _ _ hline l hl
    simp only [wrapLoop, List.mem_singleton] at hl
    exact hl ▸ hline
  | cons w ws ih =>
    intro n line hn hsub hline l hl
    simp only [wrapLoop] at hl
    by_cases hc : measure (line ++ w ++ " ") > maxWidth ∧ 0 < n
    · rw [if_pos hc] at hl
      rcases List.mem_cons.mp hl with rfl | hl
      · exact hline
      · exact ih (n + 1) (w ++ " ") (Nat.succ_pos n)
          (fun x hx => hsub x (List.mem_cons_of_mem w hx))
          (Or.inr ⟨w, hsub w (List.mem_cons_self w ws), rfl⟩) l hl
    · rw [if_neg hc] at hl
      have hle : measure (line ++ w ++ " ") ≤ maxWidth := by
        by_contra hgt
        exact hc ⟨lt_of_not_ge hgt, hn⟩
      exact ih (n + 1) (line ++ w ++ " ") (Nat.succ_pos n)
        (fun x hx => hsub x (List.mem_cons_of_mem w hx)) (Or.inl hle) l hl

theorem wrapLoop_join (measure : String → ℚ) (maxWidth : ℚ) :
    ∀ (ws : List String) (n : ℕ) (line : String),
      joinAll (wrapLoop measure maxWidth ws n line) =
        line ++ joinAll (ws.map (fun w => w ++ " ")) := by
  intro ws
  induction ws with
  | nil =>
    intro n line
    simp [wrapLoop, joinAll]
  | cons w ws ih =>
    intro n line
    simp only [wrapLoop, List.map_cons, joinAll]
    by_cases hc : measure (line ++ w ++ " ") > maxWidth ∧ 0 < n
    · rw [if_pos hc]
      simp [joinAll, ih, String.append_assoc]
    · rw [if_neg hc]
      simp [ih, String.append_assoc]

/-- C2: the greedy word wrap is sound: every produced line either measures
at most `maxWidth`, or is a single word of the input (followed by the
trailing space the code appends); and no word is dropped — the
concatenation of the produced lines is exactly the concatenation of all
input words, each followed by one space. -/
theorem word_wrap_spec (measure : String → ℚ) (maxWidth : ℚ) (words : List String)
    (hw : words ≠ []) :
    (∀ l ∈ wrapWords measure maxWidth words,
        measure l ≤ maxWidth ∨ ∃ w ∈ words, l = w ++ " ") ∧
    joinAll (wrapWords measure maxWidth words) =
      joinAll (words.map (fun w => w ++ " ")) := by
  constructor
  · match words, hw with
    | w :: ws, _ =>
      intro l hl
      have h0 : ¬ (measure ("" ++ w ++ " ") > maxWidth ∧ 0 < 0) := by
        rintro ⟨-, h⟩; exact Nat.lt_irrefl 0 h
      unfold wrapWords wrapLoop at hl
      rw [if_neg h0] at hl
      have : ("" ++ w ++ " ") = w ++ " " := by rw [String.empty_append]
      rw [this] at hl
      exact wrapLoop_sound measure maxWidth (w :: ws) ws 1 (w ++ " ") Nat.one_pos
        (fun x hx => List.mem_cons_of_mem w hx)
        (Or.inr ⟨w, List.mem_cons_self w ws, rfl⟩) l hl
  · unfold wrapWords
    rw [wrapLoop_join, String.empty_append]

theorem word_wrap_spec_witness :
    joinAll (wrapWords (fun s => (s.length : ℚ)) 10 ["hello", "big", "world"]) =
      joinAll (["hello", "big", "world"].map (fun w => w ++ " ")) :=
  (word_wrap_spec (fun s => (s.length : ℚ)) 10 ["hello", "big", "world"]
    (by simp)).2

/-! ## Retry policy (`retryOperation` in the Gemini service) -/

/-- The error value thrown by a failed operation, as inspected by
`retryOperation`: `error?.status`, `error?.error?.code`, and
`error?.message`. -/
structure JsError where
  status : Option ℕ
  code : Option ℕ
  message : String
deriving DecidableEq

/-- Whether the character list `p` is an initial segment of the first
argument. -/
def chStarts : List Char → List Char → Bool
  | _, [] => true
  | [], _ :: _ => false
  | c :: cs, p :: ps => c == p && chStarts cs ps

/-- Whether the character list `p` occurs contiguously in the first
argument. -/
def chContains : List Char → List Char → Bool
  | [], p => p.isEmpty
  | c :: cs, p => chStarts (c :: cs) p || chContains cs p

/-- JS `s.includes(pat)` (substring containment). -/
def includesSub (s pat : String) : Bool := chContains s.data pat.data

/-- `const status = error?.status || error?.error?.code`. -/
def errStatus (e : JsError) : Option ℕ :=
  match e.status with
  | some s => some s
  | none => e.code

/-- The rate-limit classification from `retryOperation`:
`status === 429 || msg.includes('429') || msg.includes('quota') ||
msg.includes('RESOURCE_EXHAUSTED') || msg.includes('rate limit')`. -/
def isRateLimit (e : JsError) : Bool :=
  (errStatus e == some 429) ||
  includesSub e.message "429" ||
  includesSub e.message "quota" ||
  includesSub e.message "RESOURCE_EXHAUSTED" ||
  includesSub e.message "rate limit"

/-- Result of one attempt of the wrapped operation. -/
inductive Outcome (α : Type) where
  | ok (v : α)
  | err (e : JsError)
deriving DecidableEq

/-- The error thrown after the `for` loop when no attempt ran
(`throw new Error("Operation failed after retries")`). -/
def exhaustedError : JsError := ⟨none, none, "Operation failed after retries"⟩

/-- The `for (let i = 0; i < maxRetries; i++)` loop of `retryOperation`.
`fuel` is the number of attempts still allowed (`maxRetries - i`), `i` the
current attempt index; `op i` is the outcome of the `i`-th call of the
wrapped operation.  On an error, the loop retries only when the error is
rate-limit class and this is not the last attempt
(`isRateLimit && !(i === maxRetries - 1)`); otherwise the error is
re-thrown. -/
def retryAux {α : Type} (op : ℕ → Outcome α) : ℕ → ℕ → Outcome α
  | 0, _ => .err exhaustedError
  | fuel + 1, i =>
    match op i with
    | .ok v => .ok v
    | .err e => if isRateLimit e = true ∧ fuel ≠ 0 then retryAux op fuel (i + 1) else .err e

/-- `retryOperation(operation, maxRetries, ...)` (the delays affect timing
only, not the returned value). -/
def retryOperation {α : Type} (op : ℕ → Outcome α) (maxRetries : ℕ) : Outcome α :=
  retryAux op maxRetries 0

theorem retryAux_ok {α : Type} (op : ℕ → Outcome α) (e : ℕ → JsError) (k : ℕ) (v : α)
    (hfail : ∀ i, i < k → op i = .err (e i))
    (hrate : ∀ i, i < k → isRateLimit (e i) = true)
    (hok : op k = .ok v) :
    ∀ fuel i, i ≤ k → k < i + fuel → retryAux op fuel i = .ok v := by
  intro fuel
  induction fuel with
  | zero => intro i hik hki; omega
  | succ f ihf =>
    intro i hik hki
    rcases Nat.eq_or_lt_of_le hik with rfl | hlt
    · simp [retryAux, hok]
    · have hop : op i = .err (e i) := hfail i hlt
      have hrl : isRateLimit (e i) = true := hrate i hlt
      have hf : f ≠ 0 := by omega
      simp only [retryAux, hop]
      rw [if_pos ⟨hrl, hf⟩]
      exact ihf (i + 1) (by omega) (by omega)

theorem retryAux_exhaust {α : Type} (op : ℕ → Outcome α) (e : ℕ → JsError) (k : ℕ)
    (hfail : ∀ i, i < k → op i = .err (e i))
    (hrate : ∀ i, i < k → isRateLimit (e i) = true) :
    ∀ fuel i, 0 < fuel → i + fuel ≤ k → retryAux op fuel i = .err (e (i + fuel - 1)) := by
  intro fuel
  induction fuel with
  | zero => intro i h0 _; omega
  | succ f ihf =>
    intro i _ hik
    have hop : op i = .err (e i) := hfail i (by omega)
    have hrl : isRateLimit (e i) = true := hrate i (by omega)
    simp only [retryAux, hop]
    rcases Nat.eq_zero_or_pos f with rfl | hf
    · rw [if_neg (by simp)]
      have harith : i = i + (0 + 1) - 1 := by omega
      rw [← harith]
    · rw [if_pos ⟨hrl, by omega⟩, ihf (i + 1) hf (by omega)]
      have harith : i + 1 + f - 1 = i + (f + 1) - 1 := by omega
      rw [harith]

theorem retryAux_nonrate {α : Type} (op : ℕ → Outcome α) (e : ℕ → JsError) (j : ℕ)
    (x : JsError)
    (hfail : ∀ i, i < j → op i = .err (e i))
    (hrate : ∀ i, i < j → isRateLimit (e i) = true)
    (hx : op j = .err x) (hnx : isRateLimit x = false) :
    ∀ fuel i, i ≤ j → j < i + fuel → retryAux op fuel i = .err x := by
  intro fuel
  induction fuel with
  | zero => intro i hij hji; omega
  | succ f ihf =>
    intro i hij hji
    rcases Nat.eq_or_lt_of_le hij with rfl | hlt
    · simp only [retryAux, hx]
      rw [if_neg (by simp [hnx])]
    · have hop : op i = .err (e i) := hfail i hlt
      have hrl : isRateLimit (e i) = true := hrate i hlt
      simp only [retryAux, hop]
      rw [if_pos ⟨hrl, by omega⟩]
      exact ihf (i + 1) (by omega) (by omega)

/-- C4: for an operation that fails with rate-limit-class errors on
attempts `0..k-1` and succeeds on attempt `k`: when `k < maxRetries` the
wrapper returns the success value; when `maxRetries ≤ k` it returns the
original rate-limit error of the last attempt, after exactly `maxRetries`
attempts (the error returned is the one raised by attempt index
`maxRetries - 1`).  Moreover, for any operation and any attempt index
`j < maxRetries`, if attempts before `j` fail with rate-limit errors and
attempt `j` fails with a non-rate-limit error, that error is re-thrown
immediately — the result is this error whatever the operation would do on
any later attempt. -/
theorem retry_policy {α : Type} (op : ℕ → Outcome α) (e : ℕ → JsError) (k m : ℕ) (v : α)
    (hfail : ∀ i, i < k → op i = .err (e i))
    (hrate : ∀ i, i < k → isRateLimit (e i) = true)
    (hok : op k = .ok v)
    (hm : 0 < m) :
    (k < m → retryOperation op m = .ok v) ∧
    (m ≤ k → retryOperation op m = .err (e (m - 1))) ∧
    (∀ (g : ℕ → Outcome α) (f : ℕ → JsError) (x : JsError) (j : ℕ),
        (∀ i, i < j → g i = .err (f i)) →
        (∀ i, i < j → isRateLimit (f i) = true) →
        g j = .err x → isRateLimit x = false → j < m →
        retryOperation g m = .err x) := by
  refine ⟨?_, ?_, ?_⟩
  · intro hkm
    exact retryAux_ok op e k v hfail hrate hok m 0 (Nat.zero_le k) (by omega)
  · intro hmk
    have := retryAux_exhaust op e k hfail hrate m 0 hm (by omega)
    simpa using this
  · intro g f x j hgf hgr hgx hnx hjm
    exact retryAux_nonrate g f j x hgf hgr hgx hnx m 0 (Nat.zero_le j) (by omega)

/-- A concrete operation that hits the rate limit twice and then
succeeds. -/
def wOp : ℕ → Outcome ℕ := fun i =>
  if i < 2 then .err ⟨some 429, none, "quota exceeded"⟩ else .ok 7

/-- A concrete operation that hits the rate limit once and then fails
with a non-rate-limit server error on attempt 1. -/
def wOp2 : ℕ → Outcome ℕ := fun i =>
  if i = 0 then .err ⟨some 429, none, "quota exceeded"⟩
  else .err ⟨some 500, none, "internal server error"⟩

theorem retry_policy_witness :
    retryOperation wOp 5 = .ok 7 ∧
    retryOperation wOp2 5 = .err ⟨some 500, none, "internal server error"⟩ :=
  ⟨(retry_policy wOp (fun _ => ⟨some 429, none, "quota exceeded"⟩) 2 5 7
      (by intro i hi; interval_cases i <;> rfl)
      (by intro i hi; interval_cases i <;> rfl)
      (by rfl) (by norm_num)).1 (by norm_num),
   (retry_policy wOp (fun _ => ⟨some 429, none, "quota exceeded"⟩) 2 5 7
      (by intro i hi; interval_cases i <;> rfl)
      (by intro i hi; interval_cases i <;> rfl)
      (by rfl) (by norm_num)).2.2
      wOp2 (fun _ => ⟨some 429, none, "quota exceeded"⟩)
      ⟨some 500, none, "internal server error"⟩ 1
      (by intro i hi; interval_cases i; rfl)
      (by intro i hi; interval_cases i; rfl)
      (by rfl) (by rfl) (by norm_num)⟩

/-! ## Export entry point, failure handling and teardown (`handleExportVideo`) -/

/-- The component state relevant to starting an export: the `isExporting`
busy flag and the number of scenes. -/
structure PlayerState where
  isExporting : Bool
  scenesLen : ℕ
deriving DecidableEq

/-- The entry of `handleExportVideo`: `if (scenes.length === 0) return;`
then `setIsExporting(true)`.  The returned Bool records whether an export
invocation actually began. -/
def startExport (st : PlayerState) : PlayerState × Bool :=
  if st.scenesLen = 0 then (st, false)
  else ({ st with isExporting := true }, true)

/-- The export button: `disabled={isExporting || scenes.length === 0}`. -/
def exportButtonDisabled (st : PlayerState) : Bool :=
  st.isExporting || st.scenesLen == 0

/-- A click on the export button: a disabled button fires no `onClick`, an
enabled one calls `handleExportVideo`. -/
def clickExport (st : PlayerState) : PlayerState × Bool :=
  if exportButtonDisabled st then (st, false) else startExport st

/-- C5 counterexample: calling `handleExportVideo` directly while the busy
flag `isExporting` is already set is neither rejected nor ignored — a
second export invocation begins (`handleExportVideo` checks only
`scenes.length === 0`, never `isExporting`). -/
theorem reentrancy_counterexample :
    (startExport ⟨true, 2⟩).2 = true := rfl

/-- C5 amended: `handleExportVideo` itself does not check the busy flag;
re-entrancy is prevented one level up, at the export button, whose
`disabled` attribute includes `isExporting` — so while an export is in
flight a click on the start-export button is ignored and starts nothing,
while a direct call of the function is guarded only against an empty
scene list. -/
theorem reentrancy_guard_amended (st : PlayerState) (h : st.isExporting = true) :
    clickExport st = (st, false) ∧
    (st.scenesLen ≠ 0 → (startExport st).2 = true) := by
  constructor
  · unfold clickExport exportButtonDisabled
    rw [h]
    simp
  · intro hne
    unfold startExport
    rw [if_neg hne]

theorem reentrancy_guard_amended_witness :
    clickExport ⟨true, 3⟩ = (⟨true, 3⟩, false) ∧
      (startExport (⟨true, 3⟩ : PlayerState)).2 = true :=
  ⟨(reentrancy_guard_amended ⟨true, 3⟩ rfl).1,
   (reentrancy_guard_amended ⟨true, 3⟩ rfl).2 (by norm_num)⟩

/-- Inputs of one export invocation: the scene list and the outcomes of
the fallible environment calls. `canvasOk` models `canvasRef.current`
being non-null, `ctxOk` models `getContext` succeeding, `musicUrl` models
`backgroundMusicUrl` (`none` = not set, `some b` = set and the
fetch/decode succeeds iff `b`), `recorderOk` models the
`new MediaRecorder(...)` constructor succeeding. -/
structure ExportEnv where
  scenes : List ExpScene
  canvasOk : Bool
  ctxOk : Bool
  musicUrl : Option Bool
  recorderOk : Bool
deriving DecidableEq

/-- Observable effects of one `handleExportVideo` invocation. -/
structure ExportResult where
  busySet : Bool
  downloaded : Bool
  alerted : Bool
  actxCreated : Bool
  actxClosed : Bool
  musicStarted : Bool
  musicStopped : Bool
  recorderStarted : Bool
  recorderStopped : Bool
  busyCleared : Bool
  warnCount : ℕ
  scenesProcessed : ℕ
deriving DecidableEq

/-- Whether a scene trips the `console.warn("Failed to load scene audio")`
branch: it has an `audioUrl` whose fetch/decode fails. -/
def sceneAudioWarn (s : ExpScene) : Bool := s.audio == some none

/-- One `handleExportVideo` invocation, step by step: the empty-scenes
early return; the `try` block (canvas and context checks that `throw`;
audio-graph creation; background-music load whose failure is only warned
about; `MediaRecorder` construction, which may throw; the per-scene loop
in which a scene-audio failure is only warned about; the finish sequence
stopping the music source and recorder, closing the audio context and
triggering the download); the `catch` block (`alert`); and the `finally`
block (`setIsExporting(false)`).  A failure after the audio graph exists
reaches `catch`/`finally` directly, skipping every later teardown line of
the `try` block. -/
def exportRun (env : ExportEnv) : ExportResult :=
  if env.scenes.length = 0 then
    { busySet := false, downloaded := false, alerted := false, actxCreated := false,
      actxClosed := false, musicStarted := false, musicStopped := false,
      recorderStarted := false, recorderStopped := false, busyCleared := false,
      warnCount := 0, scenesProcessed := 0 }
  else if env.canvasOk = false then
    { busySet := true, downloaded := false, alerted := true, actxCreated := false,
      actxClosed := false, musicStarted := false, musicStopped := false,
      recorderStarted := false, recorderStopped := false, busyCleared := true,
      warnCount := 0, scenesProcessed := 0 }
  else if env.ctxOk = false then
    { busySet := true, downloaded := false, alerted := true, actxCreated := false,
      actxClosed := false, musicStarted := false, musicStopped := false,
      recorderStarted := false, recorderStopped := false, busyCleared := true,
      warnCount := 0, scenesProcessed := 0 }
  else
    let musicLoaded : Bool := env.musicUrl == some true
    let musicWarn : ℕ := if env.musicUrl = some false then 1 else 0
    if env.recorderOk = false then
      { busySet := true, downloaded := false, alerted := true, actxCreated := true,
        actxClosed := false, musicStarted := musicLoaded, musicStopped := false,
        recorderStarted := false, recorderStopped := false, busyCleared := true,
        warnCount := musicWarn, scenesProcessed := 0 }
    else
      { busySet := true, downloaded := true, alerted := false, actxCreated := true,
        actxClosed := true, musicStarted := musicLoaded, musicStopped := musicLoaded,
        recorderStarted := true, recorderStopped := true, busyCleared := true,
        warnCount := musicWarn + (env.scenes.filter (fun s => sceneAudioWarn s)).length,
        scenesProcessed := env.scenes.length }

/-- C6 counterexample: when `new MediaRecorder` throws after the audio
graph has been created (scenes non-empty, canvas and context fine), the
invocation aborts — but `actx.close()` is never reached, so the acquired
audio graph is NOT released, contradicting the claim that all acquired
resources are released on failure. -/
theorem abort_release_counterexample :
    (exportRun ⟨[⟨"hi", true, none⟩], true, true, none, false⟩).actxCreated = true ∧
    (exportRun ⟨[⟨"hi", true, none⟩], true, true, none, false⟩).actxClosed = false ∧
    (exportRun ⟨[⟨"hi", true, none⟩], true, true, none, false⟩).alerted = true := by
  refine ⟨rfl, rfl, rfl⟩

/-- C6 amended: any failure during an export invocation (canvas or
context unavailable, or capture-sink construction failure) aborts it:
no download is produced, the failure is reported to the caller
(`alert`), and the busy flag is cleared by `finally`.  When the failure
is canvas/context unavailability, nothing has been acquired yet; but
when the capture sink fails after the audio graph was created, the audio
graph is left unreleased (`actx.close()` is skipped) — resource teardown
on the failure path covers only the busy flag, not the audio graph or
capture handles. -/
theorem abort_behavior_amended (env : ExportEnv) (hne : env.scenes.length ≠ 0)
    (hf : env.canvasOk = false ∨ env.ctxOk = false ∨ env.recorderOk = false) :
    (exportRun env).downloaded = false ∧
    (exportRun env).alerted = true ∧
    (exportRun env).busyCleared = true ∧
    (exportRun env).recorderStarted = false ∧
    (exportRun env).actxClosed = false ∧
    ((env.canvasOk = false ∨ env.ctxOk = false) → (exportRun env).actxCreated = false) ∧
    (env.canvasOk = true → env.ctxOk = true → env.recorderOk = false →
      (exportRun env).actxCreated = true) := by
  unfold exportRun
  rw [if_neg hne]
  by_cases hc : env.canvasOk = false
  · rw [if_pos hc]
    simp [hc]
  · rw [if_neg hc]
    by_cases hx : env.ctxOk = false
    · rw [if_pos hx]
      simp [hx]
    · rw [if_neg hx]
      have hr : env.recorderOk = false := by
        rcases hf with h | h | h
        · exact absurd h hc
        · exact absurd h hx
        · exact h
      simp only [if_pos hr]
      simp [hc, hx, hr]

theorem abort_behavior_amended_witness :
    (exportRun ⟨[⟨"a", false, none⟩], false, true, none, true⟩).downloaded = false ∧
    (exportRun ⟨[⟨"a", false, none⟩], false, true, none, true⟩).alerted = true :=
  ⟨(abort_behavior_amended ⟨[⟨"a", false, none⟩], false, true, none, true⟩
      (by norm_num) (Or.inl rfl)).1,
   (abort_behavior_amended ⟨[⟨"a", false, none⟩], false, true, none, true⟩
      (by norm_num) (Or.inl rfl)).2.1⟩

/-- C7: a failed fetch/decode of one scene's audio or of the background
music never aborts the export.  When the pipeline itself is healthy, the
export downloads a file, processes every scene, reports no failure, and
emits exactly one warning per failed optional asset; a scene whose audio
fails falls back to the fixed default duration (3000 + 500 ms), and a
failed background-music load leaves the music input silent. -/
theorem asset_failure_tolerated (env : ExportEnv) (hne : env.scenes.length ≠ 0)
    (hc : env.canvasOk = true) (hx : env.ctxOk = true) (hr : env.recorderOk = true) :
    (exportRun env).downloaded = true ∧
    (exportRun env).alerted = false ∧
    (exportRun env).scenesProcessed = env.scenes.length ∧
    (exportRun env).warnCount =
      (if env.musicUrl = some false then 1 else 0) +
        (env.scenes.filter (fun s => sceneAudioWarn s)).length ∧
    (∀ s ∈ env.scenes, s.audio = some none → sceneDurationMs s.audio = 3000 + 500) ∧
    (env.musicUrl = some false → (exportRun env).musicStarted = false) := by
  have hc2 : ¬ env.canvasOk = false := by simp [hc]
  have hx2 : ¬ env.ctxOk = false := by simp [hx]
  have hr2 : ¬ env.recorderOk = false := by simp [hr]
  unfold exportRun
  rw [if_neg hne, if_neg hc2, if_neg hx2]
  simp only [if_neg hr2]
  refine ⟨by trivial, by trivial, by trivial, by trivial, ?_, ?_⟩
  · intro s _ hs
    rw [hs]
    rfl
  · intro hmu
    simp [hmu]

theorem asset_failure_tolerated_witness :
    (exportRun ⟨[⟨"a", true, some none⟩, ⟨"b", true, some (some 1200)⟩],
        true, true, some false, true⟩).downloaded = true ∧
    (exportRun ⟨[⟨"a", true, some none⟩, ⟨"b", true, some (some 1200)⟩],
        true, true, some false, true⟩).scenesProcessed = 2 ∧
    (exportRun ⟨[⟨"a", true, some none⟩, ⟨"b", true, some (some 1200)⟩],
        true, true, some false, true⟩).warnCount = 2 := by
  have h := asset_failure_tolerated
    ⟨[⟨"a", true, some none⟩, ⟨"b", true, some (some 1200)⟩], true, true, some false, true⟩
    (by norm_num) rfl rfl rfl
  refine ⟨h.1, ?_, ?_⟩
  · rw [h.2.2.1]
    rfl
  · rw [h.2.2.2.1]
    rfl

/-! ## Asset bundle download (`handleDownloadZip`) -/

/-- Observable effects of one `handleDownloadZip` invocation. -/
structure ZipResult where
  zipBusySet : Bool
  zipDownloaded : Bool
deriving DecidableEq

/-- `handleDownloadZip`: `if (scenes.length === 0) return;` then
`setIsZipping(true)`, bundle the assets, and trigger the archive
download. -/
def zipRun (scenes : List ExpScene) : ZipResult :=
  if scenes.length = 0 then ⟨false, false⟩ else ⟨true, true⟩

/-- C10: with an empty scene list, both `handleExportVideo` and
`handleDownloadZip` return immediately: no busy flag is set, no audio
graph is created, no recorder is started, no file download of either kind
is produced, and nothing is processed. -/
theorem empty_scenes_noop (env : ExportEnv) (h : env.scenes.length = 0) :
    exportRun env =
      { busySet := false, downloaded := false, alerted := false, actxCreated := false,
        actxClosed := false, musicStarted := false, musicStopped := false,
        recorderStarted := false, recorderStopped := false, busyCleared := false,
        warnCount := 0, scenesProcessed := 0 } ∧
    zipRun env.scenes = ⟨false, false⟩ := by
  constructor
  · unfold exportRun
    rw [if_pos h]
  · unfold zipRun
    rw [if_pos h]

theorem empty_scenes_noop_witness :
    (exportRun ⟨[], true, true, some true, true⟩).downloaded = false ∧
    zipRun ([] : List ExpScene) = ⟨false, false⟩ :=
  ⟨by rw [(empty_scenes_noop ⟨[], true, true, some true, true⟩ rfl).1],
   (empty_scenes_noop ⟨[], true, true, some true, true⟩ rfl).2⟩

/-! ## Subtitle style rendering (`handleExportVideo`, render-text block) -/

/-- The subtitle style presets (`SubtitleStyle` in `types.ts`). -/
inductive SubStyle where
  | modern | karaoke | classic | minimal
deriving DecidableEq

/-- How one subtitle line is drawn in the export canvas: shadow
parameters set before the text block, the optional background box
(`ctx.fillRect`, drawn only for `SubtitleStyle.MODERN`), and the text
fill color (`'#FFD700'` for `CLASSIC`, `'#ffffff'` otherwise). -/
structure LineRender where
  hasBox : Bool
  boxRounded : Bool
  boxColor : String
  textColor : String
  shadowColor : String
  shadowBlur : ℕ
  shadowOffsetX : ℕ
  shadowOffsetY : ℕ
deriving DecidableEq

/-- Rendering of one subtitle line by `handleExportVideo`. The box is a
plain `fillRect` (no corner radius), present only for the Modern style. -/
def renderLine (style : SubStyle) : LineRender :=
  { hasBox := style == SubStyle.modern
  , boxRounded := false
  , boxColor := "rgba(0,0,0,0.6)"
  , textColor := if style == SubStyle.classic then "#FFD700" else "#ffffff"
  , shadowColor := "rgba(0,0,0,0.8)"
  , shadowBlur := 4
  , shadowOffsetX := 2
  , shadowOffsetY := 2 }

/-- C8 counterexample: the Minimal style — a style other than Modern and
Classic, i.e. one the claim's "default" bucket must cover — draws no
background box at all in the export renderer, and even the Modern box is
drawn with `fillRect`, which has no rounded corners. -/
theorem subtitle_box_counterexample :
    (renderLine SubStyle.minimal).hasBox = false ∧
    (renderLine SubStyle.modern).boxRounded = false := ⟨rfl, rfl⟩

/-- C8 amended: only the Modern style draws the semi-transparent
background box (a plain rectangle, not rounded) behind the text; Classic
draws gold text with no box; every other style draws white text with no
box; and every style draws the text with the soft drop shadow (2 px
offset, 4 px blur, translucent black). -/
theorem subtitle_style_amended (style : SubStyle) :
    (renderLine style).hasBox = (style == SubStyle.modern) ∧
    (renderLine style).boxRounded = false ∧
    (renderLine style).textColor =
      (if style == SubStyle.classic then "#FFD700" else "#ffffff") ∧
    (renderLine style).shadowColor = "rgba(0,0,0,0.8)" ∧
    (renderLine style).shadowBlur = 4 ∧
    (renderLine style).shadowOffsetX = 2 ∧
    (renderLine style).shadowOffsetY = 2 :=
  ⟨rfl, rfl, rfl, rfl, rfl, rfl, rfl⟩

/-! ## Bounded-concurrency queue (`processQueue` in the scenes view) -/

/-- Status of one queue worker (one `runNext` chain started by the
initial batch loop). -/
inductive WStatus where
  | ready
  | running (taskIdx : ℕ)
  | finished
deriving DecidableEq

/-- Queue execution state: the shared `index` cursor, the workers, and
the trace of dispatched task indices (in dispatch order). -/
structure QState where
  index : ℕ
  workers : List WStatus
  executed : List ℕ
deriving DecidableEq

/-- Initial state of `processQueue(tasks, concurrency)`: `index = 0` and
`Math.min(concurrency, tasks.length)` worker chains started. -/
def initQState (n concurrency : ℕ) : QState :=
  ⟨0, List.replicate (min concurrency n) WStatus.ready, []⟩

/-- One interleaving step of `processQueue` with `n` tasks.  `grab` is the
synchronous prefix of `runNext` (`const currentIndex = index++`, atomic in
the single-threaded event loop); `halt` is `if (index >= tasks.length)
return`; `complete` is a task settling — with `failed` recording whether
it rejected (the rejection is swallowed by `try`/`catch`, so the
transition is the same either way and the worker proceeds to its next
`runNext` call). -/
inductive QStep (n : ℕ) : QState → QState → Prop where
  | grab (s : QState) (w : ℕ)
      (hw : s.workers.get? w = some WStatus.ready) (hidx : s.index < n) :
      QStep n s ⟨s.index + 1, s.workers.set w (WStatus.running s.index),
        s.executed ++ [s.index]⟩
  | halt (s : QState) (w : ℕ)
      (hw : s.workers.get? w = some WStatus.ready) (hidx : n ≤ s.index) :
      QStep n s ⟨s.index, s.workers.set w WStatus.finished, s.executed⟩
  | complete (s : QState) (w i : ℕ) (failed : Bool)
      (hw : s.workers.get? w = some (WStatus.running i)) :
      QStep n s ⟨s.index, s.workers.set w WStatus.ready, s.executed⟩

/-- States reachable by `processQueue(tasks, concurrency)` under any
interleaving and any pattern of task failures. -/
inductive QReach (n concurrency : ℕ) : QState → Prop where
  | init : QReach n concurrency (initQState n concurrency)
  | step (s t : QState) (hs : QReach n concurrency s) (hst : QStep n s t) :
      QReach n concurrency t

def isRunning : WStatus → Bool
  | WStatus.running _ => true
  | _ => false

/-- Number of tasks simultaneously in flight. -/
def runningCount (s : QState) : ℕ := (s.workers.filter isRunning).length

/-- All worker chains have returned. -/
def allFinished (s : QState) : Bool := s.workers.all (fun w => w == WStatus.finished)

theorem qstep_workers_length {n : ℕ} {s t : QState} (h : QStep n s t) :
    t.workers.length = s.workers.length := by
  cases h <;> simp [List.length_set]

theorem qreach_workers_length {n C : ℕ} {s : QState} (h : QReach n C s) :
    s.workers.length = min C n := by
  induction h with
  | init => simp [initQState]
  | step s t hs hst ih => rw [qstep_workers_length hst, ih]

theorem qreach_index_le {n C : ℕ} {s : QState} (h : QReach n C s) : s.index ≤ n := by
  induction h with
  | init => exact Nat.zero_le n
  | step s t hs hst ih =>
    cases hst with
    | grab w hw hidx => exact hidx
    | halt w hw hidx => exact ih
    | complete w i failed hw => exact ih

theorem qreach_executed {n C : ℕ} {s : QState} (h : QReach n C s) :
    s.executed = List.range s.index := by
  induction h with
  | init => rfl
  | step s t hs hst ih =>
    cases hst with
    | grab w hw hidx => simp [ih, List.range_succ]
    | halt w hw hidx => simpa using ih
    | complete w i failed hw => simpa using ih

theorem qreach_finished_index {n C : ℕ} {s : QState} (h : QReach n C s) :
    WStatus.finished ∈ s.workers → n ≤ s.index := by
  induction h with
  | init =>
    intro hf
    have heq := List.eq_of_mem_replicate hf
    simp at heq
  | step s t hs hst ih =>
    cases hst with
    | grab w hw hidx =>
      intro hf
      rcases List.mem_or_eq_of_mem_set hf with hmem | heq
      · have := ih hmem
        simp only []
        omega
      · simp at heq
    | halt w hw hidx =>
      intro _
      exact hidx
    | complete w i failed hw =>
      intro hf
      rcases List.mem_or_eq_of_mem_set hf with hmem | heq
      · exact ih hmem
      · simp at heq

/-- C9: under every interleaving and every pattern of task failures, the
queue keeps at most `concurrency` tasks simultaneously in flight (in fact
at most `min concurrency n` workers exist at all), and in every terminal
state (all worker chains returned, at least one worker was started) the
dispatched-task trace is exactly `0, 1, ..., n-1`: every task was
dispatched exactly once, so a failed task (the `complete` step with
`failed = true`, swallowed by the `catch`) never prevents the remaining
tasks from running. -/
theorem queue_bounded_and_complete (n concurrency : ℕ) (s : QState)
    (hreach : QReach n concurrency s) :
    runningCount s ≤ concurrency ∧
    (allFinished s = true → s.workers ≠ [] → s.executed = List.range n) := by
  constructor
  · have h1 : runningCount s ≤ s.workers.length := List.length_filter_le _ _
    have h2 := qreach_workers_length hreach
    omega
  · intro hall hne
    obtain ⟨w, hw⟩ := List.exists_mem_of_ne_nil s.workers hne
    have hww : w = WStatus.finished := by
      have hb := List.all_eq_true.mp hall w hw
      simpa using hb
    have hfin : WStatus.finished ∈ s.workers := hww ▸ hw
    have hle := qreach_index_le hreach
    have hge := qreach_finished_index hreach hfin
    have hidx : s.index = n := le_antisymm hle hge
    rw [qreach_executed hreach, hidx]

theorem queue_bounded_and_complete_witness :
    runningCount ⟨1, [WStatus.finished], [0]⟩ ≤ 1 ∧
    ([0] : List ℕ) = List.range 1 := by
  have h0 : QReach 1 1 ⟨0, [WStatus.ready], []⟩ := QReach.init
  have h1 : QReach 1 1 ⟨1, [WStatus.running 0], [0]⟩ :=
    QReach.step _ _ h0 (QStep.grab ⟨0, [WStatus.ready], []⟩ 0 rfl (by decide))
  have h2 : QReach 1 1 ⟨1, [WStatus.ready], [0]⟩ :=
    QReach.step _ _ h1 (QStep.complete ⟨1, [WStatus.running 0], [0]⟩ 0 0 true rfl)
  have h3 : QReach 1 1 ⟨1, [WStatus.finished], [0]⟩ :=
    QReach.step _ _ h2 (QStep.halt ⟨1, [WStatus.ready], [0]⟩ 0 rfl (by decide))
  have h := queue_bounded_and_complete 1 1 ⟨1, [WStatus.finished], [0]⟩ h3
  exact ⟨h.1, h.2 (by decide) (by decide)⟩
